import Mathlib

/-!
Verification of the FreeAct active-object runtime as used by the
`blinky_button` example (files `main.c`, `bsp.h`, `bsp_esp32.c`).
The runtime itself (`FreeAct.h` / `FreeAct.c`) is consumed by the example
but its sources are not part of this tree, so the queue, the active-object
start sequence and the time-event engine are modelled from the
specification; the example code (`BlinkyButton_dispatch`, the `Signals`
enum) is embedded directly from the C sources.
-/

namespace FreeAct

/-! ## Signals -/

/-- Modelled from the spec: `FreeAct.h` is missing.  The reserved framework
signal for the synthetic "initialize" event delivered by `Active_start`;
the reserved range is the framework-internal signals below `USER_SIG`. -/
def INIT_SIG : Nat := 0

/-- Modelled from the spec: `FreeAct.h` is missing.  First signal value
available to applications; the user range must start above the reserved
range's upper bound, which is `INIT_SIG`. -/
def USER_SIG : Nat := 1

/-- From `bsp.h`, `enum Signals`: `TIMEOUT_SIG = USER_SIG`. -/
def TIMEOUT_SIG : Nat := USER_SIG

/-- From `bsp.h`, `enum Signals`: next enumerator after `TIMEOUT_SIG`. -/
def BUTTON_PRESSED_SIG : Nat := TIMEOUT_SIG + 1

/-- From `bsp.h`, `enum Signals`: next enumerator after `BUTTON_PRESSED_SIG`. -/
def BUTTON_RELEASED_SIG : Nat := BUTTON_PRESSED_SIG + 1

/-! ## Events -/

/-- An event: a signal identifier (payloads are not used by the claims). -/
structure Event where
  sig : Nat
deriving DecidableEq, Repr

/-- The synthetic "initialize" event delivered by `Active_start` before the
event loop starts reading the mailbox. -/
def initEvent : Event := ⟨INIT_SIG⟩

/-! ## Event queue (mailbox)

Modelled from the spec: `FreeAct.c` / the FreeRTOS queue it wraps are
missing.  A fixed-capacity FIFO of events; `items` is ordered front first,
insertion is at the tail. -/

structure EventQueue where
  capacity : Nat
  items : List Event
deriving DecidableEq, Repr

/-- The only queue error: posting to a saturated mailbox. -/
inductive QueueError where
  | QueueFull
deriving DecidableEq, Repr

/-- Modelled from the spec: `post(queue, event)` inserts at the tail and
fails with `QueueFull` if the queue already holds `capacity` unconsumed
events; it never resizes and never drops silently. -/
def Queue_post (q : EventQueue) (e : Event) : Except QueueError EventQueue :=
  if q.capacity ≤ q.items.length then .error .QueueFull
  else .ok { q with items := q.items ++ [e] }

/-- Modelled from the spec: `take(queue)` removes and returns the head
event; on an empty queue the caller blocks, modelled as `none`. -/
def Queue_take (q : EventQueue) : Option (Event × EventQueue) :=
  match q.items with
  | [] => none
  | e :: rest => some (e, { q with items := rest })

/-- Post a whole sequence of events, failing if any single post fails. -/
def Queue_postAll (q : EventQueue) : List Event → Except QueueError EventQueue
  | [] => .ok q
  | e :: es =>
    match Queue_post q e with
    | .error err => .error err
    | .ok q1 => Queue_postAll q1 es

/-- Take up to `n` events off the queue, in order, stopping early if the
queue empties. -/
def Queue_takeN (q : EventQueue) : Nat → List Event
  | 0 => []
  | n + 1 =>
    match Queue_take q with
    | none => []
    | some (e, q1) => e :: Queue_takeN q1 n

/-- Drain the queue completely by successive takes. -/
def Queue_drain (q : EventQueue) : List Event :=
  Queue_takeN q q.items.length

theorem Queue_takeN_items (es : List Event) (c : Nat) :
    ∀ n, Queue_takeN ⟨c, es⟩ n = es.take n := by
  induction es with
  | nil => intro n; cases n <;> simp [Queue_takeN, Queue_take]
  | cons e rest ih =>
    intro n
    cases n with
    | zero => simp [Queue_takeN]
    | succ m => simp [Queue_takeN, Queue_take, ih m]

theorem Queue_drain_items (q : EventQueue) : Queue_drain q = q.items := by
  obtain ⟨c, es⟩ := q
  simp [Queue_drain, Queue_takeN_items]

theorem Queue_postAll_ok (es : List Event) :
    ∀ (q : EventQueue), q.items.length + es.length ≤ q.capacity →
    Queue_postAll q es = .ok ⟨q.capacity, q.items ++ es⟩ := by
  induction es with
  | nil => intro q _; simp [Queue_postAll]
  | cons e rest ih =>
    intro q h
    have hlt : q.items.length < q.capacity := by
      simp only [List.length_cons] at h; omega
    have hpost : Queue_post q e = .ok ⟨q.capacity, q.items ++ [e]⟩ := by
      simp [Queue_post, Nat.not_le.mpr hlt]
    have hrest : (q.items ++ [e]).length + rest.length ≤ q.capacity := by
      simp only [List.length_append, List.length_cons] at *
      simp only [List.length_nil] at *
      omega
    simp [Queue_postAll, hpost, ih ⟨q.capacity, q.items ++ [e]⟩ hrest]

/-! ## Interleavings of producers and the consumer

Modelled from the spec: concurrent interrupt-context posts and
task-context takes act on the mailbox one at a time inside a bounded
critical section, so a concurrent execution is a sequential interleaving
of atomic `post` and `take` steps. -/

/-- One atomic step on the mailbox: a producer posts, or the consumer
takes.  A `take` on an empty queue blocks, i.e. changes nothing. -/
inductive QueueOp where
  | post (e : Event)
  | take
deriving DecidableEq, Repr

/-- System state of one mailbox and its consumer: the queue contents and
the events delivered to the consumer so far, in delivery order. -/
structure SysState where
  q : EventQueue
  delivered : List Event
deriving DecidableEq, Repr

/-- Execute one interleaving step.  A failed post leaves the state
unchanged (the failure is reported to the producer); a take on an empty
queue blocks, leaving the state unchanged. -/
def sysStep (s : SysState) : QueueOp → SysState
  | .post e =>
    match Queue_post s.q e with
    | .error _ => s
    | .ok q1 => { s with q := q1 }
  | .take =>
    match Queue_take s.q with
    | none => s
    | some (e, q1) => { q := q1, delivered := s.delivered ++ [e] }

/-- Run a whole interleaving of steps. -/
def sysRun (s : SysState) : List QueueOp → SysState
  | [] => s
  | op :: ops => sysRun (sysStep s op) ops

/-- The events posted by an interleaving, in arrival order. -/
def postedEvents : List QueueOp → List Event
  | [] => []
  | .post e :: ops => e :: postedEvents ops
  | .take :: ops => postedEvents ops

theorem sysRun_inv (ops : List QueueOp) :
    ∀ s : SysState,
    s.q.items.length + (postedEvents ops).length ≤ s.q.capacity →
    (sysRun s ops).delivered ++ (sysRun s ops).q.items
      = s.delivered ++ s.q.items ++ postedEvents ops := by
  induction ops with
  | nil => intro s _; simp [sysRun, postedEvents]
  | cons op ops ih =>
    intro s h
    cases op with
    | post e =>
      have hlt : s.q.items.length < s.q.capacity := by
        simp only [postedEvents, List.length_cons] at h; omega
      have hpost : Queue_post s.q e = .ok ⟨s.q.capacity, s.q.items ++ [e]⟩ := by
        simp [Queue_post, Nat.not_le.mpr hlt]
      have hstep : sysStep s (.post e)
          = { s with q := ⟨s.q.capacity, s.q.items ++ [e]⟩ } := by
        simp [sysStep, hpost]
      have h1 : (⟨s.q.capacity, s.q.items ++ [e]⟩ : EventQueue).items.length
          + (postedEvents ops).length
          ≤ (⟨s.q.capacity, s.q.items ++ [e]⟩ : EventQueue).capacity := by
        simp only [postedEvents, List.length_cons, List.length_append,
          List.length_nil] at *
        omega
      have := ih { s with q := ⟨s.q.capacity, s.q.items ++ [e]⟩ } h1
      simp only [sysRun, hstep, postedEvents] at *
      simp only [this, List.append_assoc, List.cons_append, List.nil_append,
        List.singleton_append]
    | take =>
      cases hq : s.q.items with
      | nil =>
        have hstep : sysStep s .take = s := by
          simp [sysStep, Queue_take, hq]
        have h1 : s.q.items.length + (postedEvents ops).length
            ≤ s.q.capacity := by
          simp only [postedEvents] at h; exact h
        have := ih s h1
        rw [hq] at this
        simp only [sysRun, hstep, postedEvents]
        exact this
      | cons e rest =>
        have hstep : sysStep s .take
            = { q := { s.q with items := rest },
                delivered := s.delivered ++ [e] } := by
          simp [sysStep, Queue_take, hq]
        have h1 : ({ s.q with items := rest } : EventQueue).items.length
            + (postedEvents ops).length
            ≤ ({ s.q with items := rest } : EventQueue).capacity := by
          simp only [postedEvents] at h
          simp only [hq, List.length_cons] at h
          simp only [List.length_cons]
          omega
        have := ih { q := { s.q with items := rest },
                     delivered := s.delivered ++ [e] } h1
        simp only [sysRun, hstep, postedEvents]
        simp only [this, hq]
        simp [List.append_assoc]

/-! ## Active object event loop

Modelled from the spec: `Active_start` creates the execution context and
delivers the synthetic "initialize" signal as the first event, before the
object loop begins reading externally posted events; the loop then
repeats `take` / dispatch forever. -/

/-- The first `n` events the dispatch function of an active object
receives, given the mailbox contents at loop start: the synthetic
initialize event first, then the mailbox in FIFO order. -/
def dispatchedPrefix (q : EventQueue) : Nat → List Event
  | 0 => []
  | n + 1 => initEvent :: Queue_takeN q n

/-! ## Time events

Modelled from the spec: `FreeAct.c` is missing.  A time event holds the
owner's target signal, a remaining-ticks countdown, a rearm interval
(`0` for one-shot, as set up by `TYPE_ONE_SHOT` in `BlinkyButton_ctor`)
and an armed flag. -/

structure TimeEvent where
  sig : Nat
  timeout : Nat
  interval : Nat
  armed : Bool
deriving DecidableEq, Repr

/-- Modelled from the spec: `construct(signal, owner)` binds the target
signal; the event starts disarmed. -/
def TimeEvent_ctor (sig : Nat) : TimeEvent :=
  { sig := sig, timeout := 0, interval := 0, armed := false }

/-- Modelled from the spec: `arm(time_event, duration, rearm_interval)`
sets remaining-ticks to the duration and marks armed; re-arming an
already-armed event resets the countdown, last call wins.  The example
calls the one-shot form `TimeEvent_arm(&te, d)`, which is the
`rearm_interval = 0` case. -/
def TimeEvent_arm (te : TimeEvent) (duration interval : Nat) : TimeEvent :=
  { te with timeout := duration, interval := interval, armed := true }

/-- Modelled from the spec: `disarm(time_event)` marks the event
disarmed; a disarmed event is inert. -/
def TimeEvent_disarm (te : TimeEvent) : TimeEvent :=
  { te with armed := false }

/-- Modelled from the spec: one update of the tick engine on one time
event: a disarmed event is skipped; an armed one has its remaining-ticks
decremented, and when the countdown reaches zero the engine posts the
target signal (returned as `some sig`), then disarms (one-shot) or
reloads the countdown from the rearm interval (periodic). -/
def TimeEvent_tick (te : TimeEvent) : TimeEvent × Option Nat :=
  if te.armed then
    let t := te.timeout - 1
    if t = 0 then
      if te.interval = 0 then
        ({ te with timeout := 0, armed := false }, some te.sig)
      else
        ({ te with timeout := te.interval }, some te.sig)
    else
      ({ te with timeout := t }, none)
  else
    (te, none)

/-- The time event's state after one tick, discarding the posted signal. -/
def tickState (te : TimeEvent) : TimeEvent := (TimeEvent_tick te).1

/-- The time event's state after `n` ticks. -/
def afterTicks (te : TimeEvent) : Nat → TimeEvent
  | 0 => te
  | n + 1 => tickState (afterTicks te n)

/-- The signal posted on the `k`-th tick after the start state (ticks are
numbered from 1; tick 0 means no tick has happened). -/
def postedOnTick (te : TimeEvent) : Nat → Option Nat
  | 0 => none
  | k + 1 => (TimeEvent_tick (afterTicks te k)).2

theorem tick_disarmed (te : TimeEvent) (h : te.armed = false) :
    TimeEvent_tick te = (te, none) := by
  simp [TimeEvent_tick, h]

theorem afterTicks_disarmed (te : TimeEvent) (h : te.armed = false) :
    ∀ n, afterTicks te n = te := by
  intro n
  induction n with
  | zero => rfl
  | succ m ih => simp [afterTicks, ih, tickState, tick_disarmed te h]

theorem afterTicks_add (te : TimeEvent) (a : Nat) :
    ∀ b, afterTicks te (a + b) = afterTicks (afterTicks te a) b := by
  intro b
  induction b with
  | zero => rfl
  | succ m ih => simp only [Nat.add_succ, afterTicks, Nat.add_eq, ih]

theorem postedOnTick_add (te : TimeEvent) (a b : Nat) (hb : 1 ≤ b) :
    postedOnTick te (a + b) = postedOnTick (afterTicks te a) b := by
  obtain ⟨c, rfl⟩ := Nat.exists_eq_add_of_le hb
  simp only [postedOnTick, Nat.add_comm 1 c, Nat.add_succ, afterTicks_add]

theorem afterTicks_countdown (sig t i : Nat) :
    ∀ j, j < t →
    afterTicks ⟨sig, t, i, true⟩ j = ⟨sig, t - j, i, true⟩ := by
  intro j
  induction j with
  | zero => intro _; simp [afterTicks]
  | succ m ih =>
    intro h
    have hm : m < t := Nat.lt_of_succ_lt h
    have ht : t - m - 1 ≠ 0 := by omega
    simp only [afterTicks, ih hm, tickState, TimeEvent_tick, if_pos rfl,
      ht, if_neg ht]
    simp only [if_true]
    have : t - m - 1 = t - (m + 1) := by omega
    simp [this]

theorem postedOnTick_before (sig t i : Nat) (k : Nat)
    (h1 : 1 ≤ k) (h2 : k < t) :
    postedOnTick ⟨sig, t, i, true⟩ k = none := by
  obtain ⟨m, rfl⟩ := Nat.exists_eq_add_of_le h1
  simp only [Nat.add_comm 1 m, postedOnTick]
  rw [afterTicks_countdown sig t i m (by omega)]
  have ht : t - m - 1 ≠ 0 := by omega
  simp [TimeEvent_tick, ht]

theorem postedOnTick_expiry (sig t i : Nat) (h : 1 ≤ t) :
    postedOnTick ⟨sig, t, i, true⟩ t = some sig := by
  obtain ⟨m, rfl⟩ := Nat.exists_eq_add_of_le h
  simp only [Nat.add_comm 1 m, postedOnTick]
  rw [afterTicks_countdown sig (m + 1) i m (by omega)]
  have : m + 1 - m = 1 := by omega
  rw [this]
  by_cases hi : i = 0 <;> simp [TimeEvent_tick, hi]

theorem afterTicks_expiry (sig t i : Nat) (h : 1 ≤ t) :
    afterTicks ⟨sig, t, i, true⟩ t
      = if i = 0 then ⟨sig, 0, 0, false⟩ else ⟨sig, i, i, true⟩ := by
  obtain ⟨m, rfl⟩ := Nat.exists_eq_add_of_le h
  have hstep : afterTicks ⟨sig, 1 + m, i, true⟩ (1 + m)
      = tickState (afterTicks ⟨sig, 1 + m, i, true⟩ m) := by
    rw [Nat.add_comm 1 m]
    rfl
  rw [hstep, afterTicks_countdown sig (1 + m) i m (by omega)]
  have hmm : 1 + m - m = 1 := by omega
  rw [hmm]
  by_cases hi : i = 0 <;> simp [tickState, TimeEvent_tick, hi]

theorem postedOnTick_disarmed (te : TimeEvent) (h : te.armed = false) :
    ∀ k, postedOnTick te k = none := by
  intro k
  cases k with
  | zero => rfl
  | succ m =>
    simp [postedOnTick, afterTicks_disarmed te h, tick_disarmed te h]

theorem postedOnTick_periodic (sig i : Nat) (hi : 0 < i) :
    ∀ m, 1 ≤ m →
    (postedOnTick ⟨sig, i, i, true⟩ m = some sig ↔ m % i = 0) := by
  intro m
  induction m using Nat.strong_induction_on with
  | _ m ih =>
    intro hm
    rcases Nat.lt_trichotomy m i with hlt | heq | hgt
    · rw [postedOnTick_before sig i i m hm hlt]
      constructor
      · intro hc; exact absurd hc (by simp)
      · intro hc
        have : m % i = m := Nat.mod_eq_of_lt hlt
        omega
    · rw [heq, postedOnTick_expiry sig i i (by omega)]
      simp [Nat.mod_self]
    · have hb : 1 ≤ m - i := by omega
      have hsplit : m = i + (m - i) := by omega
      rw [hsplit, postedOnTick_add _ i (m - i) hb,
        afterTicks_expiry sig i i (by omega),
        if_neg (by omega : ¬ i = 0), Nat.add_mod_left]
      exact ih (m - i) (by omega) hb

theorem tickState_sig (te : TimeEvent) : (tickState te).sig = te.sig := by
  rcases te with ⟨s, t, i, a⟩
  cases a <;> by_cases h1 : t - 1 = 0 <;> by_cases h2 : i = 0 <;>
    simp [tickState, TimeEvent_tick, h1, h2]

theorem afterTicks_sig (te : TimeEvent) :
    ∀ n, (afterTicks te n).sig = te.sig := by
  intro n
  induction n with
  | zero => rfl
  | succ m ih => rw [afterTicks, tickState_sig, ih]

theorem postedOnTick_one_shot (sig d : Nat) (hd : 1 ≤ d) (k : Nat)
    (hk : 1 ≤ k) :
    (postedOnTick ⟨sig, d, 0, true⟩ k = some sig ↔ k = d) := by
  rcases Nat.lt_trichotomy k d with hlt | heq | hgt
  · rw [postedOnTick_before sig d 0 k hk hlt]
    constructor
    · intro hc; exact absurd hc (by simp)
    · intro hc; omega
  · simp [heq, postedOnTick_expiry sig d 0 hd]
  · have hsplit : k = d + (k - d) := by omega
    rw [hsplit, postedOnTick_add _ d (k - d) (by omega),
      afterTicks_expiry sig d 0 hd, if_pos rfl,
      postedOnTick_disarmed ⟨sig, 0, 0, false⟩ rfl]
    constructor
    · intro hc; exact absurd hc (by simp)
    · intro hc; omega

/-! ## The BlinkyButton example (`main.c`, `bsp_esp32.c`) -/

/-- The application state of the BlinkyButton active object from
`main.c`: the time event for LED blinking and the current LED state. -/
structure BlinkyButton where
  te : TimeEvent
  isLedOn : Bool
deriving DecidableEq, Repr

/-- The LED output levels driven through the BSP (`bsp_esp32.c`): `led0`
is the red LED on GPIO18, `led1` the blue LED on GPIO19; `true` is on. -/
structure BspLeds where
  led0 : Bool
  led1 : Bool
deriving DecidableEq, Repr

/-- Embedded from `BlinkyButton_ctor` in `main.c`: the time event is
constructed with `TIMEOUT_SIG` and set up one-shot (`TYPE_ONE_SHOT`,
rearm interval 0 in the spec model); the LED state starts off. -/
def BlinkyButton_ctor : BlinkyButton :=
  { te := TimeEvent_ctor TIMEOUT_SIG, isLedOn := false }

/-- Embedded from `BlinkyButton_dispatch` in `main.c`.  The switch falls
through from `INIT_SIG` to `TIMEOUT_SIG` (one shared body); the BSP LED
calls become updates of the `BspLeds` outputs; `TimeEvent_arm(&me->te, d)`
is the one-shot arm, i.e. rearm interval 0. -/
def BlinkyButton_dispatch (me : BlinkyButton) (leds : BspLeds) (e : Event) :
    BlinkyButton × BspLeds :=
  if e.sig = INIT_SIG ∨ e.sig = TIMEOUT_SIG then
    if !me.isLedOn then
      ({ te := TimeEvent_arm me.te 200 0, isLedOn := true },
       { leds with led1 := true })
    else
      ({ te := TimeEvent_arm me.te 800 0, isLedOn := false },
       { leds with led1 := false })
  else if e.sig = BUTTON_PRESSED_SIG then
    (me, { leds with led0 := true })
  else if e.sig = BUTTON_RELEASED_SIG then
    (me, { leds with led0 := false })
  else
    (me, leds)

/-! ## Claims -/

/-- C1: for every sequence of post operations on one event queue that
never exceeds the queue's fixed capacity, successive take operations
return exactly the events posted, in exactly the order they were posted
(FIFO), with no event lost, duplicated, or reordered. -/
theorem C1_queue_fifo (es : List Event) (cap : Nat) (h : es.length ≤ cap) :
    ∃ q : EventQueue,
      Queue_postAll ⟨cap, []⟩ es = .ok q ∧ Queue_drain q = es := by
  refine ⟨⟨cap, es⟩, ?_, ?_⟩
  · have := Queue_postAll_ok es ⟨cap, []⟩ (by simpa using h)
    simpa using this
  · simp [Queue_drain_items]

theorem C1_queue_fifo_witness :
    ∃ q : EventQueue,
      Queue_postAll ⟨3, []⟩ [⟨5⟩, ⟨6⟩, ⟨7⟩] = .ok q ∧
      Queue_drain q = [⟨5⟩, ⟨6⟩, ⟨7⟩] :=
  C1_queue_fifo [⟨5⟩, ⟨6⟩, ⟨7⟩] 3 (by decide)

/-- C2: for every event queue already holding capacity unconsumed events,
a post of any further event returns the QueueFull failure and leaves the
queue's contents and its count unchanged (no silent drop, no resize, no
corruption). -/
theorem C2_post_full (q : EventQueue) (e : Event) (d : List Event)
    (h : q.items.length = q.capacity) :
    Queue_post q e = .error .QueueFull ∧
    sysStep ⟨q, d⟩ (.post e) = ⟨q, d⟩ := by
  have hp : Queue_post q e = .error .QueueFull := by
    simp [Queue_post, h]
  exact ⟨hp, by simp [sysStep, hp]⟩

theorem C2_post_full_witness :
    Queue_post ⟨2, [⟨1⟩, ⟨2⟩]⟩ ⟨3⟩ = .error .QueueFull ∧
    sysStep ⟨⟨2, [⟨1⟩, ⟨2⟩]⟩, []⟩ (.post ⟨3⟩) = ⟨⟨2, [⟨1⟩, ⟨2⟩]⟩, []⟩ :=
  C2_post_full ⟨2, [⟨1⟩, ⟨2⟩]⟩ ⟨3⟩ [] (by decide)

/-- C3: for every active object and every sequence of external posts, the
synthetic initialize signal delivered by start is the first event the
object's dispatch function ever receives: no externally posted event is
dispatched before it, however many events were posted before start
completed (here: whatever the mailbox holds when the loop begins). -/
theorem C3_init_signal_first (cap : Nat) (es : List Event) (n : Nat) :
    dispatchedPrefix ⟨cap, es⟩ (n + 1) = initEvent :: es.take n := by
  simp [dispatchedPrefix, Queue_takeN_items]

/-- C4: a time event armed with duration `d` (and not re-armed or
disarmed) posts its target signal exactly once, on the `d`-th tick after
arming; a one-shot event is then disarmed and never posts again, while a
periodic event posts again exactly every rearm interval. -/
theorem C4_time_event_expiry (sig d i : Nat) (te : TimeEvent)
    (hte : te = TimeEvent_arm (TimeEvent_ctor sig) d i) (hd : 1 ≤ d) :
    (∀ k, 1 ≤ k → k < d → postedOnTick te k = none) ∧
    postedOnTick te d = some sig ∧
    (i = 0 → (afterTicks te d).armed = false ∧
      ∀ k, d < k → postedOnTick te k = none) ∧
    (0 < i → ∀ k, d < k →
      (postedOnTick te k = some sig ↔ (k - d) % i = 0)) := by
  have harm : te = ⟨sig, d, i, true⟩ := hte
  subst harm
  refine ⟨?_, postedOnTick_expiry sig d i hd, ?_, ?_⟩
  · intro k hk hkd
    exact postedOnTick_before sig d i k hk hkd
  · intro hi
    subst hi
    rw [afterTicks_expiry sig d 0 hd, if_pos rfl]
    refine ⟨rfl, ?_⟩
    intro k hdk
    have hsplit : k = d + (k - d) := by omega
    rw [hsplit, postedOnTick_add _ d (k - d) (by omega),
      afterTicks_expiry sig d 0 hd, if_pos rfl,
      postedOnTick_disarmed ⟨sig, 0, 0, false⟩ rfl]
  · intro hi k hdk
    have hsplit : k = d + (k - d) := by omega
    rw [hsplit, postedOnTick_add _ d (k - d) (by omega),
      afterTicks_expiry sig d i hd, if_neg (by omega : ¬ i = 0)]
    have hmod : d + (k - d) - d = k - d := by omega
    rw [hmod]
    exact postedOnTick_periodic sig i hi (k - d) (by omega)

theorem C4_time_event_expiry_witness :
    postedOnTick (TimeEvent_arm (TimeEvent_ctor 7) 2 0) 2 = some 7 :=
  (C4_time_event_expiry 7 2 0 (TimeEvent_arm (TimeEvent_ctor 7) 2 0)
    rfl (by decide)).2.1

/-- C5: arming an already-armed time event resets its countdown with no
error (last call wins): arm after any earlier arm and any number of ticks
equals the second arm alone, and the spec's example holds — arm 10, wait
3 ticks, re-arm 5, and the (one-shot) expiry lands 5 ticks after the
re-arm, i.e. on tick 8 counted from the first arm. -/
theorem C5_rearm_resets (te1 te2 : TimeEvent) (h : te1.sig = te2.sig)
    (d1 i1 n d2 i2 : Nat) :
    TimeEvent_arm (afterTicks (TimeEvent_arm te1 d1 i1) n) d2 i2
      = TimeEvent_arm te2 d2 i2 ∧
    ∀ k, 1 ≤ k →
      (postedOnTick
          (TimeEvent_arm (afterTicks (TimeEvent_arm te1 10 0) 3) 5 0) k
        = some te1.sig ↔ 3 + k = 8) := by
  constructor
  · have hs : (afterTicks (TimeEvent_arm te1 d1 i1) n).sig = te1.sig := by
      rw [afterTicks_sig]
      rfl
    show (⟨(afterTicks (TimeEvent_arm te1 d1 i1) n).sig, d2, i2, true⟩
        : TimeEvent) = ⟨te2.sig, d2, i2, true⟩
    rw [hs, h]
  · intro k hk
    have h1 : TimeEvent_arm te1 10 0 = ⟨te1.sig, 10, 0, true⟩ := rfl
    have h2 : afterTicks (TimeEvent_arm te1 10 0) 3
        = ⟨te1.sig, 7, 0, true⟩ := by
      rw [h1, afterTicks_countdown te1.sig 10 0 3 (by omega)]
    have h3 : TimeEvent_arm (afterTicks (TimeEvent_arm te1 10 0) 3) 5 0
        = ⟨te1.sig, 5, 0, true⟩ := by
      rw [h2]
      rfl
    rw [h3, postedOnTick_one_shot te1.sig 5 (by omega) k hk]
    omega

theorem C5_rearm_resets_witness :
    TimeEvent_arm (afterTicks (TimeEvent_arm (TimeEvent_ctor 1) 10 0) 3) 5 0
      = TimeEvent_arm (TimeEvent_ctor 1) 5 0 ∧
    postedOnTick
        (TimeEvent_arm (afterTicks (TimeEvent_arm (TimeEvent_ctor 1) 10 0) 3)
          5 0) 5
      = some (TimeEvent_ctor 1).sig :=
  ⟨(C5_rearm_resets (TimeEvent_ctor 1) (TimeEvent_ctor 1) rfl 10 0 3 5 0).1,
   ((C5_rearm_resets (TimeEvent_ctor 1) (TimeEvent_ctor 1) rfl 10 0 3 5 0).2
      5 (by decide)).mpr (by decide)⟩

/-- C6: a disarmed time event is inert for the whole arm cycle: the tick
engine never advances its countdown (its state is unchanged by any number
of ticks) and never posts its signal. -/
theorem C6_disarm_inert (te : TimeEvent) (k : Nat) (hk : 1 ≤ k) :
    postedOnTick (TimeEvent_disarm te) k = none ∧
    afterTicks (TimeEvent_disarm te) k = TimeEvent_disarm te :=
  ⟨postedOnTick_disarmed (TimeEvent_disarm te) rfl k,
   afterTicks_disarmed (TimeEvent_disarm te) rfl k⟩

theorem C6_disarm_inert_witness :
    postedOnTick (TimeEvent_disarm (TimeEvent_arm (TimeEvent_ctor 2) 5 0)) 4
      = none ∧
    afterTicks (TimeEvent_disarm (TimeEvent_arm (TimeEvent_ctor 2) 5 0)) 4
      = TimeEvent_disarm (TimeEvent_arm (TimeEvent_ctor 2) 5 0) :=
  C6_disarm_inert (TimeEvent_arm (TimeEvent_ctor 2) 5 0) 4 (by decide)

/-- C7: every user-defined signal of the example's `Signals` enum lies at
or above `USER_SIG`, which itself lies strictly above the reserved
framework range's upper bound (`INIT_SIG`), so no user signal collides
with a reserved signal value. -/
theorem C7_user_signal_range :
    INIT_SIG < USER_SIG ∧
    USER_SIG ≤ TIMEOUT_SIG ∧
    USER_SIG ≤ BUTTON_PRESSED_SIG ∧
    USER_SIG ≤ BUTTON_RELEASED_SIG ∧
    TIMEOUT_SIG ≠ INIT_SIG ∧
    BUTTON_PRESSED_SIG ≠ INIT_SIG ∧
    BUTTON_RELEASED_SIG ≠ INIT_SIG := by
  decide

/-- C8: for every interleaving of posts with consumer takes on one queue,
with the number of posted events not exceeding the capacity, no event is
lost or duplicated: what the consumer took during the run plus what is
left to drain equals exactly the posted events, in arrival order. -/
theorem C8_interleaving_no_loss (ops : List QueueOp) (cap : Nat)
    (h : (postedEvents ops).length ≤ cap) :
    (sysRun ⟨⟨cap, []⟩, []⟩ ops).delivered
      ++ Queue_drain (sysRun ⟨⟨cap, []⟩, []⟩ ops).q
      = postedEvents ops := by
  have := sysRun_inv ops ⟨⟨cap, []⟩, []⟩ (by simpa using h)
  rw [Queue_drain_items]
  simpa using this

theorem C8_interleaving_no_loss_witness :
    (sysRun ⟨⟨3, []⟩, []⟩
        [.post ⟨1⟩, .take, .post ⟨2⟩, .post ⟨3⟩, .take]).delivered
      ++ Queue_drain (sysRun ⟨⟨3, []⟩, []⟩
        [.post ⟨1⟩, .take, .post ⟨2⟩, .post ⟨3⟩, .take]).q
      = postedEvents [.post ⟨1⟩, .take, .post ⟨2⟩, .post ⟨3⟩, .take] :=
  C8_interleaving_no_loss [.post ⟨1⟩, .take, .post ⟨2⟩, .post ⟨3⟩, .take]
    3 (by decide)

/-- C9: for every BlinkyButton state and every event whose signal is none
of INIT_SIG, TIMEOUT_SIG, BUTTON_PRESSED_SIG, BUTTON_RELEASED_SIG,
the dispatch function changes nothing: object state (including the time
event) and LED outputs are returned unchanged. -/
theorem C9_dispatch_frame (me : BlinkyButton) (leds : BspLeds) (e : Event)
    (h1 : e.sig ≠ INIT_SIG) (h2 : e.sig ≠ TIMEOUT_SIG)
    (h3 : e.sig ≠ BUTTON_PRESSED_SIG) (h4 : e.sig ≠ BUTTON_RELEASED_SIG) :
    BlinkyButton_dispatch me leds e = (me, leds) := by
  simp [BlinkyButton_dispatch, h1, h2, h3, h4]

theorem C9_dispatch_frame_witness :
    BlinkyButton_dispatch BlinkyButton_ctor ⟨false, false⟩ ⟨99⟩
      = (BlinkyButton_ctor, ⟨false, false⟩) :=
  C9_dispatch_frame BlinkyButton_ctor ⟨false, false⟩ ⟨99⟩
    (by decide) (by decide) (by decide) (by decide)

/-- C10: dispatching INIT_SIG has exactly the same effect as dispatching
TIMEOUT_SIG (the switch cases share one body): both toggle `isLedOn`,
drive LED1 to the new LED state, and re-arm the one-shot time event with
200 when the LED turns on and 800 when it turns off. -/
theorem C10_init_timeout_equiv (me : BlinkyButton) (leds : BspLeds) :
    BlinkyButton_dispatch me leds ⟨INIT_SIG⟩
      = BlinkyButton_dispatch me leds ⟨TIMEOUT_SIG⟩ ∧
    (BlinkyButton_dispatch me leds ⟨INIT_SIG⟩).1.isLedOn = !me.isLedOn ∧
    (BlinkyButton_dispatch me leds ⟨INIT_SIG⟩).2.led1 = !me.isLedOn ∧
    (BlinkyButton_dispatch me leds ⟨INIT_SIG⟩).1.te
      = TimeEvent_arm me.te (if me.isLedOn then 800 else 200) 0 := by
  cases hme : me.isLedOn <;>
    simp [BlinkyButton_dispatch, INIT_SIG, TIMEOUT_SIG, USER_SIG, hme]

end FreeAct
